import Mathlib

/-!
# NexFlow — verification of the Flow Execution & Scheduling Engine

Shallow embedding of the core of the NexFlow repository:

* `src/lib/template.ts` — template interpolator (`interpolateTemplate`);
* `src/lib/stepExecutor.ts` — step interpreter (`executeSteps`, `evaluateRule`,
  `executeFetch`, `executeCondition`, `executeLogic`, `executeDelay`,
  `executeLog`, `executeNotify`, `parseDuration`);
* `src/lib/utils.ts` — `generateFlowId`, `runFlowNow`;
* `src/lib/cron.ts` — `isDue` (the external `cron-parser` library is modelled
  by standard 5-field UTC cron semantics, per the spec's stated cron contract);
* `src/durable/NexFlowManager.ts` — `persistRun`, flow creation, state shape.

Modelling conventions:

* JavaScript values flowing through a run are modelled by `JSValue`.  Numbers
  are modelled as integers (`Int`); the claims under study only involve
  integral values, and no claim depends on float-specific behaviour.
* Timestamps (`new Date()` readings) are modelled by a monotone `Nat` counter
  threaded through execution; `toISOString` rendering is irrelevant to the
  claims, only ordering and identity of readings matter.
* Network effects (`fetch`), `JSON.parse` of webhook payloads and UUID
  generation are modelled by an explicit `World` oracle supplied to the
  interpreter, so that the interpreter itself is a pure function.
-/

namespace NexFlow

/-- Model of the JavaScript values that flow through a run: `undefined`,
`null`, booleans, numbers (restricted to integers, see module header),
strings and plain JSON-like objects (ordered key/value lists, as JS objects
preserve insertion order). -/
inductive JSValue where
  | jsundefined : JSValue
  | null : JSValue
  | bool : Bool → JSValue
  | num : Int → JSValue
  | str : String → JSValue
  | obj : List (String × JSValue) → JSValue

/-- The type of a condition/logic rule's `value` field
(zod: `z.union([z.string(), z.number()])`). -/
inductive Prim where
  | str : String → Prim
  | num : Int → Prim
deriving DecidableEq

def Prim.toJS : Prim → JSValue
  | .str s => .str s
  | .num n => .num n

/-- JS whitespace (the subset relevant here). -/
def isWsChar (c : Char) : Bool :=
  c = ' ' || c = '\t' || c = '\n' || c = '\r'

/-- `String.prototype.trim` on a character list. -/
def strTrim (l : List Char) : List Char :=
  ((l.dropWhile isWsChar).reverse.dropWhile isWsChar).reverse

def digitsToNat : List Char → Option Nat
  | [] => none
  | l => go l 0
where
  go : List Char → Nat → Option Nat
    | [], acc => some acc
    | c :: rest, acc =>
      if c.isDigit then go rest (acc * 10 + (c.toNat - '0'.toNat)) else none

/-- Model of JS `Number(string)`: trimmed empty string is `0`; an optionally
signed decimal integer literal parses to its value; anything else is `NaN`
(`none`).  (Model scope: fractional/exponent/hex literals are outside the
integer value model, see module header.) -/
def jsStringToNumber (s : String) : Option Int :=
  match strTrim s.data with
  | [] => some 0
  | '-' :: ds => (digitsToNat ds).map (fun n => -(n : Int))
  | '+' :: ds => (digitsToNat ds).map (fun n => (n : Int))
  | ds => (digitsToNat ds).map (fun n => (n : Int))

/-- Model of JS `Number(value)` / `ToNumber`; `none` is `NaN`. -/
def jsToNumber : JSValue → Option Int
  | .jsundefined => none
  | .null => some 0
  | .bool b => some (if b then 1 else 0)
  | .num n => some n
  | .str s => jsStringToNumber s
  | .obj _ => none

/-- Model of JS `String(value)` (plain objects stringify to
`"[object Object]"`). -/
def jsToString : JSValue → String
  | .jsundefined => "undefined"
  | .null => "null"
  | .bool b => if b then "true" else "false"
  | .num n => toString n
  | .str s => s
  | .obj _ => "[object Object]"

/-- JSON string-literal escaping (the subset exercised here). -/
def jsonEscape : List Char → List Char
  | [] => []
  | c :: rest =>
    if c = '"' then '\\' :: '"' :: jsonEscape rest
    else if c = '\\' then '\\' :: '\\' :: jsonEscape rest
    else if c = '\n' then '\\' :: 'n' :: jsonEscape rest
    else c :: jsonEscape rest

def jsonQuote (s : String) : String :=
  "\"" ++ String.mk (jsonEscape s.data) ++ "\""

mutual
/-- Model of `JSON.stringify` (compact form): `none` for a top-level
`undefined` (JS returns the value `undefined`, not a string); object members
whose value is `undefined` are skipped. -/
def jsonStr : JSValue → Option String
  | .jsundefined => none
  | .null => some "null"
  | .bool b => some (if b then "true" else "false")
  | .num n => some (toString n)
  | .str s => some (jsonQuote s)
  | .obj fields => some ("\x7b" ++ String.intercalate "," (jsonFieldStrs fields) ++ "\x7d")

def jsonFieldStrs : List (String × JSValue) → List String
  | [] => []
  | (k, v) :: rest =>
    match jsonStr v with
    | none => jsonFieldStrs rest
    | some sv => (jsonQuote k ++ ":" ++ sv) :: jsonFieldStrs rest
end

/-- Split a character list at every occurrence of `sep` (the model of JS
`String.prototype.split` with a single-character separator); `acc` holds the
current segment in reverse. -/
def splitOnCharGo (sep : Char) (acc : List Char) : List Char → List String
  | [] => [String.mk acc.reverse]
  | c :: rest =>
    if c = sep then String.mk acc.reverse :: splitOnCharGo sep [] rest
    else splitOnCharGo sep (c :: acc) rest

/-- JS `path.split(".")`. -/
def jsSplitDot (s : String) : List String :=
  splitOnCharGo '.' [] s.data

/-- One property-access step `current[part]` guarded by the
null/undefined check of the source's `getDeepValue` loop body. -/
def jsIndex : JSValue → String → JSValue
  | .obj fields, part =>
    match fields.lookup part with
    | some v => v
    | none => .jsundefined
  | _, _ => .jsundefined

/-- `getDeepValue(obj, path)` from `src/lib/template.ts` (duplicated verbatim
in `src/lib/stepExecutor.ts`): empty path is `undefined`; otherwise split the
path on `"."` and walk, returning `undefined` as soon as the current value is
`null`/`undefined` or the key is absent. -/
def getDeepValue (root : JSValue) (path : String) : JSValue :=
  if path = "" then .jsundefined
  else walk root (jsSplitDot path)
where
  walk : JSValue → List String → JSValue
    | cur, [] => cur
    | .jsundefined, _ :: _ => .jsundefined
    | .null, _ :: _ => .jsundefined
    | cur, part :: rest => walk (jsIndex cur part) rest

/-- The run context's `results` record: insertion-ordered map from fetch-step
id to captured output. -/
abbrev Results := List (String × JSValue)

/-- The replacer body of `interpolateTemplate`: trim the captured expression,
resolve it, substitute `[missing <expr>]` for `undefined`/`null`, JSON-render
objects (with `String(value)` as the unreachable `catch` fallback), and
`String(value)` otherwise. -/
def renderExpr (results : Results) (exprRaw : List Char) : List Char :=
  let e := strTrim exprRaw
  let v := getDeepValue (.obj results) (String.mk e)
  match v with
  | .jsundefined => ("[missing " ++ String.mk e ++ "]").data
  | .null => ("[missing " ++ String.mk e ++ "]").data
  | .obj _ =>
    match jsonStr v with
    | some s => s.data
    | none => (jsToString v).data
  | _ => (jsToString v).data

/-- Character scanner implementing the global-replace of
`/\$\{([^}]+)\}/g`.  Outside a placeholder (first argument `none`) a `"${"`
opens one and any other character is copied through.  Inside a placeholder
(`some acc`, the captured expression accumulated in reverse) the first `"}"`
closes it — an empty capture does not match the regex `[^}]+`, so `"${}"` is
emitted literally — and an unterminated `"${"` is emitted literally at end
of input. -/
def scanGo (results : Results) : Option (List Char) → List Char → List Char
  | none, '$' :: '{' :: rest => scanGo results (some []) rest
  | none, c :: rest => c :: scanGo results none rest
  | none, [] => []
  | some acc, '}' :: rest =>
    if acc.isEmpty then '$' :: '{' :: '}' :: scanGo results none rest
    else renderExpr results acc.reverse ++ scanGo results none rest
  | some acc, c :: rest => scanGo results (some (c :: acc)) rest
  | some acc, [] => '$' :: '{' :: acc.reverse

/-- `interpolateTemplate` from `src/lib/template.ts`.  The source's
`if (!template) return ""` covers both `undefined` and the empty string;
the scanner returns `""` on `""` as well, so only the `undefined` case
needs the explicit guard here. -/
def interpolateTemplate (template : Option String) (results : Results) : String :=
  match template with
  | none => ""
  | some t => String.mk (scanGo results none t.data)

/-- `interpolateJsonPayload` from `src/lib/template.ts` (an alias). -/
def interpolateJsonPayload (raw : String) (results : Results) : String :=
  interpolateTemplate (some raw) results

/-! ### Scanner lemmas (for claim C8) -/

theorem scanGo_cons_ne (r : Results) (c : Char) (l : List Char) (hc : c ≠ '$') :
    scanGo r none (c :: l) = c :: scanGo r none l := by
  cases l with
  | nil => simp [scanGo, hc]
  | cons d t => simp [scanGo, hc]

theorem scanGo_append_no_dollar (r : Results) (p l : List Char) (hp : '$' ∉ p) :
    scanGo r none (p ++ l) = p ++ scanGo r none l := by
  induction p with
  | nil => simp
  | cons c p ih =>
    have hc : c ≠ '$' := fun h => hp (h ▸ List.mem_cons_self c p)
    have hp2 : '$' ∉ p := fun h => hp (List.mem_cons_of_mem c h)
    simp only [List.cons_append, scanGo_cons_ne r c (p ++ l) hc, ih hp2]

theorem scanGo_in_cons_ne (r : Results) (acc : List Char) (c : Char) (l : List Char)
    (hc : c ≠ '}') :
    scanGo r (some acc) (c :: l) = scanGo r (some (c :: acc)) l := by
  cases l with
  | nil => simp [scanGo, hc]
  | cons d t => simp [scanGo, hc]

theorem scanGo_in_closed (r : Results) (expr : List Char) (tail : List Char)
    (hnb : '}' ∉ expr) :
    ∀ acc : List Char,
      scanGo r (some acc) (expr ++ '}' :: tail)
        = if (expr.reverse ++ acc).isEmpty then '$' :: '{' :: '}' :: scanGo r none tail
          else renderExpr r (acc.reverse ++ expr) ++ scanGo r none tail := by
  induction expr with
  | nil => intro acc; simp [scanGo]
  | cons e expr ih =>
    intro acc
    have he : e ≠ '}' := fun h => hnb (h ▸ List.mem_cons_self e expr)
    have hnb2 : '}' ∉ expr := fun h => hnb (List.mem_cons_of_mem e h)
    rw [List.cons_append, scanGo_in_cons_ne r acc e (expr ++ '}' :: tail) he, ih hnb2 (e :: acc)]
    simp

theorem scanGo_open (r : Results) (l : List Char) :
    scanGo r none ('$' :: '{' :: l) = scanGo r (some []) l := by
  simp [scanGo]

theorem renderExpr_missing (r : Results) (expr : List Char)
    (hmiss : getDeepValue (.obj r) (String.mk (strTrim expr)) = .jsundefined) :
    renderExpr r expr = ("[missing " ++ String.mk (strTrim expr) ++ "]").data := by
  simp [renderExpr, hmiss]

/-- C8: for every results map, interpolation returns the empty string when
the template is absent/undefined, and replaces every placeholder
`"$\x7bexpr\x7d"` whose (trimmed) dot-separated path does not resolve in the
map with the literal text `"[missing <expr>]"`, continuing with the rest of
the template; being a total function, it never throws. -/
theorem c8_interpolate_missing_policy (results : Results) (p expr tail : List Char)
    (hp : '$' ∉ p) (hne : expr ≠ []) (hnb : '}' ∉ expr)
    (hmiss : getDeepValue (.obj results) (String.mk (strTrim expr)) = .jsundefined) :
    interpolateTemplate none results = ""
      ∧ interpolateTemplate (some (String.mk (p ++ '$' :: '{' :: (expr ++ '}' :: tail)))) results
          = String.mk (p ++ ("[missing " ++ String.mk (strTrim expr) ++ "]").data
              ++ scanGo results none tail) := by
  refine ⟨rfl, ?_⟩
  show String.mk (scanGo results none (p ++ '$' :: '{' :: (expr ++ '}' :: tail))) = _
  rw [scanGo_append_no_dollar results p _ hp, scanGo_open,
    scanGo_in_closed results expr tail hnb []]
  have hrev : (expr.reverse ++ ([] : List Char)).isEmpty = false := by
    rw [List.append_nil]
    cases expr with
    | nil => exact absurd rfl hne
    | cons c l => simp
  rw [hrev]
  simp [renderExpr_missing results expr hmiss]

/-- Witness for C8, at the spec's own test vector
`interpolate("Value: $\x7bmissing.step\x7d", \x7b\x7d") == "Value: [missing missing.step]"`. -/
theorem c8_interpolate_missing_policy_witness :
    interpolateTemplate none [] = ""
      ∧ interpolateTemplate (some "Value: $\x7bmissing.step\x7d") []
          = "Value: [missing missing.step]" := by
  have h := c8_interpolate_missing_policy [] "Value: ".data "missing.step".data []
    (by decide) (by decide) (by decide) rfl
  refine ⟨h.1, ?_⟩
  have e1 : String.mk ("Value: ".data ++ '$' :: '{' :: ("missing.step".data ++ '}' :: []))
      = "Value: $\x7bmissing.step\x7d" := by decide
  have e2 : String.mk ("Value: ".data
        ++ ("[missing " ++ String.mk (strTrim "missing.step".data) ++ "]").data
        ++ scanGo [] none []) = "Value: [missing missing.step]" := by decide
  rw [← e1, ← e2]
  exact h.2

/-! ### Condition/logic rules (`src/lib/stepExecutor.ts`: `evaluateRule`) -/

/-- The comparison operators of condition/logic rules
(zod: `z.enum(["=", "!=", "<", ">", "<=", ">="])`). -/
inductive CmpOp where
  | eq | ne | lt | gt | le | ge
deriving DecidableEq

def CmpOp.render : CmpOp → String
  | .eq => "="
  | .ne => "!="
  | .lt => "<"
  | .gt => ">"
  | .le => "<="
  | .ge => ">="

/-- A condition rule (`\x7b input, operator, value \x7d`), also the element
type of a `logic` step's `conditions`. -/
structure Rule where
  input : String
  operator : CmpOp
  value : Prim
deriving DecidableEq

/-- JS loose equality `value == target`, specialised to a right operand that
is a string or number (the type of a rule's `value`).  Two operands of equal
type compare strictly; a number meets a string through `ToNumber` on the
string; booleans coerce to numbers; `null`/`undefined` never equal a
string/number; an object converts via `ToPrimitive` (plain objects give
`"[object Object]"`). -/
def looseEq : JSValue → Prim → Bool
  | .num n, .num m => n == m
  | .num n, .str u =>
    match jsStringToNumber u with
    | some m => n == m
    | none => false
  | .str s, .str u => s == u
  | .str s, .num m =>
    match jsStringToNumber s with
    | some n => n == m
    | none => false
  | .bool b, .num m => (if b then (1 : Int) else 0) == m
  | .bool b, .str u =>
    match jsStringToNumber u with
    | some m => (if b then (1 : Int) else 0) == m
    | none => false
  | .null, _ => false
  | .jsundefined, _ => false
  | .obj _, .str u => "[object Object]" == u
  | .obj _, .num _ => false

/-- Lexicographic (code-unit) order on character lists, the model of the JS
abstract relational comparison on two strings. -/
def strLtChars : List Char → List Char → Bool
  | [], [] => false
  | [], _ :: _ => true
  | _ :: _, [] => false
  | a :: as, b :: bs =>
    if a < b then true
    else if b < a then false
    else strLtChars as bs

/-- JS `a < b` on strings. -/
def jsStrLt (a b : String) : Bool :=
  strLtChars a.data b.data

/-- `evaluateRule` from `src/lib/stepExecutor.ts`: resolve the rule's `input`
path in `context.results` with `getDeepValue`, compute `Number(...)` of both
operands; `=`/`!=` use JS loose equality directly, while the relational
operators compare numerically when both operands are numeric
(`!isNaN(...)` both sides) and by `String(...)` comparison otherwise.
(The source's `default: throw` arm is unreachable here because the operator
enum is closed.) -/
def evaluateRule (rule : Rule) (results : Results) : Bool :=
  let value := getDeepValue (.obj results) rule.input
  let target := rule.value
  let numValue := jsToNumber value
  let numTarget := jsToNumber target.toJS
  match rule.operator with
  | .eq => looseEq value target
  | .ne => !looseEq value target
  | .lt =>
    match numValue, numTarget with
    | some a, some b => decide (a < b)
    | _, _ => jsStrLt (jsToString value) (jsToString target.toJS)
  | .gt =>
    match numValue, numTarget with
    | some a, some b => decide (a > b)
    | _, _ => jsStrLt (jsToString target.toJS) (jsToString value)
  | .le =>
    match numValue, numTarget with
    | some a, some b => decide (a ≤ b)
    | _, _ => !jsStrLt (jsToString target.toJS) (jsToString value)
  | .ge =>
    match numValue, numTarget with
    | some a, some b => decide (a ≥ b)
    | _, _ => !jsStrLt (jsToString value) (jsToString target.toJS)

/-- Claim C5's literal reading of the comparison semantics: for *every*
operator (including `=` and `!=`), both operands are coerced to numbers
whenever both parse as numeric, and compared numerically in that case,
otherwise compared as strings. -/
def claimedEvaluateRule (rule : Rule) (results : Results) : Bool :=
  let value := getDeepValue (.obj results) rule.input
  let target := rule.value
  match jsToNumber value, jsToNumber target.toJS with
  | some a, some b =>
    match rule.operator with
    | .eq => a == b
    | .ne => a != b
    | .lt => decide (a < b)
    | .gt => decide (a > b)
    | .le => decide (a ≤ b)
    | .ge => decide (a ≥ b)
  | _, _ =>
    match rule.operator with
    | .eq => jsToString value == jsToString target.toJS
    | .ne => jsToString value != jsToString target.toJS
    | .lt => jsStrLt (jsToString value) (jsToString target.toJS)
    | .gt => jsStrLt (jsToString target.toJS) (jsToString value)
    | .le => !jsStrLt (jsToString target.toJS) (jsToString value)
    | .ge => !jsStrLt (jsToString value) (jsToString target.toJS)

/-- Whether a JS value is a scalar string or number (the operand shapes the
amended comparison claim speaks about). -/
def strOrNum : JSValue → Bool
  | .str _ => true
  | .num _ => true
  | _ => false

/-- The amended claim's loose equality on scalar operands, written from the
amended wording: equality compares numerically across a numeric-string
boundary (a string that fails to parse as a number equals no number), while
two strings compare as strings — even when both happen to look numeric — and
two numbers compare as numbers. -/
def specLooseEqScalar : JSValue → Prim → Bool
  | .str s, .str u => s == u
  | .num n, .num m => n == m
  | .str s, .num m =>
    match jsStringToNumber s with
    | some n => n == m
    | none => false
  | .num n, .str u =>
    match jsStringToNumber u with
    | some m => n == m
    | none => false
  | _, _ => false

/-- The amended claim's comparison semantics, written from the amended
wording: `=`/`!=` are loose equality ([specLooseEqScalar]); `<`, `>`, `<=`,
`>=` coerce both operands to numbers when both parse as numeric and compare
numerically in that case, otherwise compare the operands as strings. -/
def specCompareScalar (op : CmpOp) (v : JSValue) (t : Prim) : Bool :=
  match op with
  | .eq => specLooseEqScalar v t
  | .ne => !specLooseEqScalar v t
  | _ =>
    if (jsToNumber v).isSome && (jsToNumber t.toJS).isSome then
      let a := (jsToNumber v).getD 0
      let b := (jsToNumber t.toJS).getD 0
      match op with
      | .lt => decide (a < b)
      | .gt => decide (a > b)
      | .le => decide (a ≤ b)
      | _ => decide (a ≥ b)
    else
      let a := jsToString v
      let b := jsToString t.toJS
      match op with
      | .lt => jsStrLt a b
      | .gt => jsStrLt b a
      | .le => !jsStrLt b a
      | _ => !jsStrLt a b

def specAmendedEval (rule : Rule) (results : Results) : Bool :=
  specCompareScalar rule.operator (getDeepValue (.obj results) rule.input) rule.value

/-- C5 counterexample: at the concrete input where the resolved value is the
string `"05"` and the rule is `= "5"`, both operands parse as numeric and are
numerically equal, so the claim's reading predicts `true`, but the code
(JS loose equality, which compares two strings as strings) returns `false`. -/
theorem c5_counterexample_numeric_strings :
    claimedEvaluateRule ⟨"x", .eq, .str "5"⟩ [("x", .str "05")] = true
      ∧ evaluateRule ⟨"x", .eq, .str "5"⟩ [("x", .str "05")] = false
      ∧ jsToNumber (getDeepValue (.obj [("x", .str "05")]) "x")
          = jsToNumber (Prim.toJS (.str "5")) := by
  refine ⟨by decide, by decide, rfl⟩

/-- C5 (amended): whenever the resolved operand is a scalar string or
number, `evaluateRule` implements: `=`/`!=` as JS loose equality (numeric
across a numeric-string boundary, string equality between two strings), and
`<`/`>`/`<=`/`>=` numerically when both operands parse as numeric, otherwise
as string comparison. -/
theorem c5_amended_comparison_semantics (rule : Rule) (results : Results)
    (h : strOrNum (getDeepValue (.obj results) rule.input) = true) :
    evaluateRule rule results = specAmendedEval rule results := by
  rcases rule with ⟨inp, op, t⟩
  simp only [evaluateRule, specAmendedEval, specCompareScalar]
  set v := getDeepValue (.obj results) inp with hv
  clear_value v
  cases v with
  | str s =>
    cases op with
    | eq => cases t <;> rfl
    | ne => cases t <;> rfl
    | lt =>
      cases t with
      | str u =>
        cases h1 : jsStringToNumber s <;> cases h2 : jsStringToNumber u <;>
          simp [jsToNumber, Prim.toJS, h1, h2]
      | num m =>
        cases h1 : jsStringToNumber s <;> simp [jsToNumber, Prim.toJS, h1]
    | gt =>
      cases t with
      | str u =>
        cases h1 : jsStringToNumber s <;> cases h2 : jsStringToNumber u <;>
          simp [jsToNumber, Prim.toJS, h1, h2]
      | num m =>
        cases h1 : jsStringToNumber s <;> simp [jsToNumber, Prim.toJS, h1]
    | le =>
      cases t with
      | str u =>
        cases h1 : jsStringToNumber s <;> cases h2 : jsStringToNumber u <;>
          simp [jsToNumber, Prim.toJS, h1, h2]
      | num m =>
        cases h1 : jsStringToNumber s <;> simp [jsToNumber, Prim.toJS, h1]
    | ge =>
      cases t with
      | str u =>
        cases h1 : jsStringToNumber s <;> cases h2 : jsStringToNumber u <;>
          simp [jsToNumber, Prim.toJS, h1, h2]
      | num m =>
        cases h1 : jsStringToNumber s <;> simp [jsToNumber, Prim.toJS, h1]
  | num n =>
    cases op with
    | eq => cases t <;> rfl
    | ne => cases t <;> rfl
    | lt =>
      cases t with
      | str u =>
        cases h2 : jsStringToNumber u <;> simp [jsToNumber, Prim.toJS, h2]
      | num m => simp [jsToNumber, Prim.toJS]
    | gt =>
      cases t with
      | str u =>
        cases h2 : jsStringToNumber u <;> simp [jsToNumber, Prim.toJS, h2]
      | num m => simp [jsToNumber, Prim.toJS]
    | le =>
      cases t with
      | str u =>
        cases h2 : jsStringToNumber u <;> simp [jsToNumber, Prim.toJS, h2]
      | num m => simp [jsToNumber, Prim.toJS]
    | ge =>
      cases t with
      | str u =>
        cases h2 : jsStringToNumber u <;> simp [jsToNumber, Prim.toJS, h2]
      | num m => simp [jsToNumber, Prim.toJS]
  | jsundefined => simp [strOrNum] at h
  | null => simp [strOrNum] at h
  | bool b => simp [strOrNum] at h
  | obj fs => simp [strOrNum] at h

/-- Witness for the amended C5 theorem at the counterexample's input. -/
theorem c5_amended_comparison_semantics_witness :
    strOrNum (getDeepValue (.obj [("x", JSValue.str "05")]) "x") = true
      ∧ evaluateRule ⟨"x", .eq, .str "5"⟩ [("x", .str "05")]
          = specAmendedEval ⟨"x", .eq, .str "5"⟩ [("x", .str "05")] :=
  ⟨by decide, c5_amended_comparison_semantics ⟨"x", .eq, .str "5"⟩ [("x", .str "05")] (by decide)⟩


/-! ### Step interpreter (`src/lib/stepExecutor.ts`) -/

/-- `logic` step combinator (zod: `z.enum(["AND", "OR"])`). -/
inductive LogicMode where
  | and | or
deriving DecidableEq

def LogicMode.render : LogicMode → String
  | .and => "AND"
  | .or => "OR"

/-- `notify` step channels (zod: `z.enum(["slack", "discord", "teams", "webhook"])`). -/
inductive NotifyMethod where
  | slack | discord | teams | webhook
deriving DecidableEq

def NotifyMethod.render : NotifyMethod → String
  | .slack => "slack"
  | .discord => "discord"
  | .teams => "teams"
  | .webhook => "webhook"

/-- The step union of `src/schemas/FlowConfig.ts` (`StepSchema`).  The zod
defaults are applied: a fetch step's `method` is a concrete string (default
`"GET"`).  The `log`/`notify` field `include` is named `includeKeys` because
`include` is a Lean keyword. -/
inductive Step where
  | fetch (id : String) (url : String) (method : String)
      (headers : List (String × String)) (body : Option String)
      (timeout_ms : Option Nat)
  | condition (rule : Rule)
  | logic (mode : LogicMode) (conditions : List Rule)
  | delay (duration : String)
  | log (message : String) (includeKeys : Option (List String))
  | notify (method : NotifyMethod) (url : String) (message : Option String)
      (rawPayload : Option String)
deriving DecidableEq

def Step.typeName : Step → String
  | .fetch .. => "fetch"
  | .condition _ => "condition"
  | .logic .. => "logic"
  | .delay _ => "delay"
  | .log .. => "log"
  | .notify .. => "notify"

/-- `"id" in step ? step.id : step.type` — only fetch steps carry an `id`. -/
def Step.idOf : Step → String
  | .fetch id _ _ _ _ _ => id
  | s => s.typeName

/-- Outcome of one HTTP request, as supplied by the environment oracle:
a response (status, headers, and the body after the source's
JSON-parse-with-raw-text-fallback), an abort (the request exceeded the
configured timeout and the `AbortController` fired), or another network
error carrying the thrown message. -/
inductive FetchResult where
  | success (status : Nat) (headers : List (String × String)) (body : JSValue)
  | aborted
  | failure (message : String)

/-- Outcome of a notify POST: a response (status and raw body text) or a
thrown network error. -/
inductive NotifyResult where
  | response (status : Nat) (text : String)
  | failure (message : String)

/-- Environment oracle for the interpreter: outbound HTTP for `fetch` steps
(url, method, headers, body), outbound HTTP for `notify` POSTs (url, JSON
body), and `JSON.parse` on interpolated webhook payloads (an oracle so that
the interpreter stays independent of a concrete JSON grammar). -/
structure World where
  fetchHttp : String → String → List (String × String) → Option String → FetchResult
  notifyHttp : String → String → NotifyResult
  jsonParse : String → Except String JSValue

/-- `ExecContext` from `src/lib/stepExecutor.ts`: the per-run mutable
results record and log lines. -/
structure ExecContext where
  results : Results
  logs : List String

def pushLog (ctx : ExecContext) (line : String) : ExecContext :=
  {ctx with logs := ctx.logs ++ [line]}

/-- `StepExecutionResult` (the `StepOutcome` of the spec); timestamps are
clock readings, see module header. -/
structure StepExecutionResult where
  stepId : String
  output : Option JSValue
  error : Option String
  timestamp : Nat

structure ExecutionOutcome where
  success : Bool
  stepResults : List StepExecutionResult

/-- JS object-key assignment `context.results[step.id] = output`
(replace an existing key in place, append a new one). -/
def updateAssoc (m : Results) (k : String) (v : JSValue) : Results :=
  match m with
  | [] => [(k, v)]
  | (k2, v2) :: rest =>
    if k2 = k then (k, v) :: rest else (k2, v2) :: updateAssoc rest k v

def lowerStr (s : String) : String :=
  String.mk (s.data.map Char.toLower)

/-- `Headers.has("Content-Type")` is case-insensitive. -/
def headersHasContentType (headers : List (String × String)) : Bool :=
  headers.any (fun kv => lowerStr kv.1 == "content-type")

/-- `step.body.trim().startsWith("{") || step.body.trim().startsWith("[")`. -/
def bodyLooksJson (body : String) : Bool :=
  match strTrim body.data with
  | '{' :: _ => true
  | '[' :: _ => true
  | _ => false

/-- The request headers actually sent by `executeFetch`: `Content-Type:
application/json` is added when a (truthy, i.e. non-empty) body looks like
JSON and no content type was set. -/
def fetchHeaders (headers : List (String × String)) (body : Option String) :
    List (String × String) :=
  match body with
  | some b =>
    if b ≠ "" ∧ ¬headersHasContentType headers ∧ bodyLooksJson b then
      headers ++ [("Content-Type", "application/json")]
    else headers
  | none => headers

/-- `executeFetch`: perform the request (with adjusted headers); on success
build `{status, headers, body}` and log; on an `AbortError` throw the
timeout-specific message; rethrow anything else.  Non-2xx responses are
deliberately not failures (see the source's comment). -/
def executeFetch (w : World) (id url method : String)
    (headers : List (String × String)) (body : Option String)
    (timeoutMs : Option Nat) (ctx : ExecContext) :
    Except String JSValue × ExecContext :=
  match w.fetchHttp url method (fetchHeaders headers body) body with
  | .success status respHeaders respBody =>
    let output := JSValue.obj
      [("status", .num status),
       ("headers", .obj (respHeaders.map (fun kv => (kv.1, JSValue.str kv.2)))),
       ("body", respBody)]
    (.ok output, pushLog ctx s!"[fetch:{id}] {method} {url} -> {status}")
  | .aborted =>
    let tstr := match timeoutMs with
      | some tms => toString tms
      | none => "undefined"
    (.error s!"Request timed out after {tstr}ms", ctx)
  | .failure message => (.error message, ctx)

/-- `executeCondition`: evaluate the rule and log the comparison. -/
def executeCondition (rule : Rule) (ctx : ExecContext) : Bool × ExecContext :=
  let result := evaluateRule rule ctx.results
  let inp := rule.input
  let ops := rule.operator.render
  let tv := jsToString rule.value.toJS
  (result, pushLog ctx s!"[condition] {inp} {ops} {tv} -> {result}")

/-- The combined result of a `logic` step's rule evaluations. -/
def logicResult (mode : LogicMode) (conds : List Rule) (results : Results) : Bool :=
  let evaluations := conds.map (fun c => evaluateRule c results)
  match mode with
  | .and => evaluations.all id
  | .or => evaluations.any id

/-- `executeLogic`: evaluate all rules, combine with AND/OR, log. -/
def executeLogic (mode : LogicMode) (conds : List Rule) (ctx : ExecContext) :
    Bool × ExecContext :=
  let result := logicResult mode conds ctx.results
  let n := conds.length
  let ms := mode.render
  (result, pushLog ctx s!"[logic] {n} conditions ({ms}) -> {result}")

/-- `parseDuration`: `/^(\d+)(ms|s|m|h)$/` — a non-empty digit run followed
exactly by one of the four units; anything else throws.  (The source's
second `throw` for an unsupported unit is unreachable behind the regex.) -/
def parseDuration (duration : String) : Except String Nat :=
  let chars := duration.data
  let digits := chars.takeWhile Char.isDigit
  let unit := chars.dropWhile Char.isDigit
  match digits with
  | [] => .error s!"Invalid duration format \"{duration}\""
  | ds =>
    let value := (digitsToNat ds).getD 0
    if unit = "ms".data then .ok value
    else if unit = "s".data then .ok (value * 1000)
    else if unit = "m".data then .ok (value * 60000)
    else if unit = "h".data then .ok (value * 3600000)
    else .error s!"Invalid duration format \"{duration}\""

/-- Key lookup `context.results[key]` (missing keys are `undefined`). -/
def lookupOrUndef (results : Results) (k : String) : JSValue :=
  match results.lookup k with
  | some v => v
  | none => .jsundefined

/-- `executeLog`: interpolate the message; if `include` lists keys, append a
JSON dump of the (shallowly) included results; log; resolve `true`. -/
def executeLog (message : String) (includeKeys : Option (List String))
    (ctx : ExecContext) : JSValue × ExecContext :=
  let baseMessage := interpolateTemplate (some message) ctx.results
  let included : Option Results :=
    includeKeys.map (fun keys => keys.map (fun k => (k, lookupOrUndef ctx.results k)))
  let message2 :=
    match included with
    | some fields =>
      if fields.length > 0 then baseMessage ++ " " ++ ((jsonStr (.obj fields)).getD "")
      else baseMessage
    | none => baseMessage
  (.bool true, pushLog ctx s!"[log] {message2}")

/-- `executeNotify`: build the channel payload (`{text}` for slack/teams,
`{content}` for discord, interpolate-then-parse `rawPayload` for webhook with
the `{message}` fallback), POST it, log the status, and throw on a non-2xx
response with the first 100 characters of the response body. -/
def executeNotify (w : World) (method : NotifyMethod) (url : String)
    (message : Option String) (rawPayload : Option String) (ctx : ExecContext) :
    Except String JSValue × ExecContext :=
  let interpolatedMessage := interpolateTemplate (some (message.getD "")) ctx.results
  let payloadE : Except String String :=
    match method with
    | .slack => .ok ((jsonStr (.obj [("text", .str interpolatedMessage)])).getD "")
    | .teams => .ok ((jsonStr (.obj [("text", .str interpolatedMessage)])).getD "")
    | .discord => .ok ((jsonStr (.obj [("content", .str interpolatedMessage)])).getD "")
    | .webhook =>
      match rawPayload with
      | some rp =>
        let raw := interpolateJsonPayload rp ctx.results
        match w.jsonParse raw with
        | .ok v => .ok ((jsonStr v).getD "")
        | .error e => .error s!"Invalid webhook payload JSON: {e}"
      | none => .ok ((jsonStr (.obj [("message", .str interpolatedMessage)])).getD "")
  match payloadE with
  | .error e => (.error e, ctx)
  | .ok body =>
    match w.notifyHttp url body with
    | .failure message2 => (.error message2, ctx)
    | .response status text =>
      let ms := method.render
      let ctx1 := pushLog ctx s!"[notify:{ms}] status={status}"
      if 200 ≤ status ∧ status < 300 then (.ok (JSValue.bool true), ctx1)
      else
        let snippet := String.mk (text.data.take 100)
        (.error s!"Notify request failed ({status}): {snippet}", ctx1)

/-- The result of the `switch (step.type)` body for one step: a produced
output value, or the condition/logic false signal that makes `executeSteps`
return early with success. -/
inductive StepSignal where
  | value (v : JSValue)
  | halted (kind : String)

/-- The `switch (step.type)` of `executeSteps`, including the
condition/logic early-stop handling (their extra log line is pushed here,
the early-return outcome itself is assembled in [executeSteps]). -/
def execSwitch (w : World) (step : Step) (ctx : ExecContext) :
    Except String StepSignal × ExecContext :=
  match step with
  | .fetch id url method headers body timeoutMs =>
    match executeFetch w id url method headers body timeoutMs ctx with
    | (.ok v, ctx1) => (.ok (.value v), ctx1)
    | (.error e, ctx1) => (.error e, ctx1)
  | .condition rule =>
    match executeCondition rule ctx with
    | (b, ctx1) =>
      if b then (.ok (.value (.bool b)), ctx1)
      else
        let inp := rule.input
        (.ok (.halted "condition"),
          pushLog ctx1 s!"[condition:{inp}] Evaluated false, stopping execution.")
  | .logic mode conds =>
    match executeLogic mode conds ctx with
    | (b, ctx1) =>
      if b then (.ok (.value (.bool b)), ctx1)
      else (.ok (.halted "logic"),
        pushLog ctx1 "[logic] Evaluated false, stopping execution.")
  | .delay duration =>
    match parseDuration duration with
    | .ok _ => (.ok (.value (.bool true)), ctx)
    | .error e => (.error e, ctx)
  | .log message includeKeys =>
    match executeLog message includeKeys ctx with
    | (v, ctx1) => (.ok (.value v), ctx1)
  | .notify method url message rawPayload =>
    match executeNotify w method url message rawPayload ctx with
    | (.ok v, ctx1) => (.ok (.value v), ctx1)
    | (.error e, ctx1) => (.error e, ctx1)

/-- The post-switch write `if (step.type === "fetch") context.results[step.id] = output`. -/
def fetchWrite (step : Step) (out : JSValue) (ctx : ExecContext) : ExecContext :=
  match step with
  | .fetch id _ _ _ _ _ => {ctx with results := updateAssoc ctx.results id out}
  | _ => ctx

/-- `executeSteps` from `src/lib/stepExecutor.ts`: run the steps in order
against the shared context.  A thrown step error logs `[type] Error: ...`,
records a failing outcome and stops with `success=false`; a false
condition/logic records its outcome and stops with `success=true`; only
fetch outputs are written into `context.results` under the step id; each
recorded outcome gets a fresh clock reading. -/
def executeSteps (w : World) (steps : List Step) (context : ExecContext)
    (t : Nat) : ExecutionOutcome × ExecContext × Nat :=
  match steps with
  | [] => (⟨true, []⟩, context, t)
  | step :: rest =>
    match execSwitch w step context with
    | (.error message, ctx1) =>
      let tn := step.typeName
      let ctx2 := pushLog ctx1 s!"[{tn}] Error: {message}"
      (⟨false, [⟨step.idOf, none, some message, t⟩]⟩, ctx2, t + 1)
    | (.ok (.halted kind), ctx1) =>
      (⟨true, [⟨kind, some (.bool false), none, t⟩]⟩, ctx1, t + 1)
    | (.ok (.value out), ctx1) =>
      let r := executeSteps w rest (fetchWrite step out ctx1) (t + 1)
      (⟨r.1.success, ⟨step.idOf, some out, none, t⟩ :: r.1.stepResults⟩, r.2)

/-- Successful, non-halting execution of a step list: `some` of the produced
outcomes, final context and clock when every step returns a value (no throw,
no false condition/logic), `none` otherwise. -/
def execPre (w : World) : List Step → ExecContext → Nat →
    Option (List StepExecutionResult × ExecContext × Nat)
  | [], ctx, t => some ([], ctx, t)
  | step :: rest, ctx, t =>
    match execSwitch w step ctx with
    | (.ok (.value out), ctx1) =>
      match execPre w rest (fetchWrite step out ctx1) (t + 1) with
      | some (outs, ctxf, tf) => some (⟨step.idOf, some out, none, t⟩ :: outs, ctxf, tf)
      | none => none
    | _ => none



/-! ### Interpreter lemmas (for claims C1 and C6) -/

theorem execPre_length (w : World) (steps : List Step) :
    ∀ ctx t outs ctx1 t1, execPre w steps ctx t = some (outs, ctx1, t1) →
      outs.length = steps.length := by
  induction steps with
  | nil =>
    intro ctx t outs ctx1 t1 h
    simp [execPre] at h
    simp [h.1]
  | cons step rest ih =>
    intro ctx t outs ctx1 t1 h
    simp only [execPre] at h
    rcases hsw : execSwitch w step ctx with ⟨e, ctxa⟩
    rw [hsw] at h
    rcases e with e | sig
    · simp at h
    · rcases sig with v | kind
      · simp only at h
        rcases hpre : execPre w rest (fetchWrite step v ctxa) (t + 1) with _ | ⟨outs2, ctxf, tf⟩
        · rw [hpre] at h; simp at h
        · rw [hpre] at h
          simp only [Option.some.injEq, Prod.mk.injEq] at h
          have := ih _ _ _ _ _ hpre
          simp [← h.1, this]
      · simp at h

theorem executeSteps_append_of_execPre (w : World) (pre : List Step) :
    ∀ rest ctx t outs ctx1 t1, execPre w pre ctx t = some (outs, ctx1, t1) →
      executeSteps w (pre ++ rest) ctx t =
        (⟨(executeSteps w rest ctx1 t1).1.success,
          outs ++ (executeSteps w rest ctx1 t1).1.stepResults⟩,
         (executeSteps w rest ctx1 t1).2) := by
  induction pre with
  | nil =>
    intro rest ctx t outs ctx1 t1 h
    simp [execPre] at h
    rcases h with ⟨h1, h2, h3⟩
    subst h1; subst h2; subst h3
    simp
  | cons step pre2 ih =>
    intro rest ctx t outs ctx1 t1 h
    simp only [execPre] at h
    rcases hsw : execSwitch w step ctx with ⟨e, ctxa⟩
    rw [hsw] at h
    rcases e with e | sig
    · simp at h
    · rcases sig with v | kind
      · simp only at h
        rcases hpre : execPre w pre2 (fetchWrite step v ctxa) (t + 1) with _ | ⟨outs2, ctxf, tf⟩
        · rw [hpre] at h; simp at h
        · rw [hpre] at h
          simp only [Option.some.injEq, Prod.mk.injEq] at h
          obtain ⟨ho, hc, ht⟩ := h
          subst hc; subst ht
          have hrec := ih rest _ _ _ _ _ hpre
          simp only [List.cons_append, executeSteps, hsw, List.append_eq, hrec, ← ho]
      · simp at h


/-- The timeout-specific error message `executeFetch` throws when the
`AbortController` fired (`timeout_ms` configured as `tms`). -/
def timeoutErrorText (tms : Nat) : String :=
  s!"Request timed out after {tms}ms"

/-- C1: when every step before a condition (resp. logic) step executes
successfully without halting, and that condition (resp. logic) step
evaluates to false, `executeSteps` stops immediately with `success = true`,
and the outcome list is exactly one outcome per executed step — the
prefix's outcomes followed by the condition/logic outcome — with nothing
for any later step. -/
theorem c1_condition_false_short_circuit (w : World)
    (pre post : List Step) (rule : Rule) (mode : LogicMode) (conds : List Rule)
    (ctx ctx1 : ExecContext) (t t1 : Nat) (outs : List StepExecutionResult)
    (hpre : execPre w pre ctx t = some (outs, ctx1, t1)) :
    (evaluateRule rule ctx1.results = false →
      (executeSteps w (pre ++ Step.condition rule :: post) ctx t).1.success = true
        ∧ (executeSteps w (pre ++ Step.condition rule :: post) ctx t).1.stepResults
            = outs ++ [⟨"condition", some (.bool false), none, t1⟩]
        ∧ (executeSteps w (pre ++ Step.condition rule :: post) ctx t).1.stepResults.length
            = pre.length + 1)
      ∧ (logicResult mode conds ctx1.results = false →
        (executeSteps w (pre ++ Step.logic mode conds :: post) ctx t).1.success = true
          ∧ (executeSteps w (pre ++ Step.logic mode conds :: post) ctx t).1.stepResults
              = outs ++ [⟨"logic", some (.bool false), none, t1⟩]
          ∧ (executeSteps w (pre ++ Step.logic mode conds :: post) ctx t).1.stepResults.length
              = pre.length + 1) := by
  have hlen := execPre_length w pre ctx t outs ctx1 t1 hpre
  constructor
  · intro hfalse
    have happ := executeSteps_append_of_execPre w pre (Step.condition rule :: post)
      ctx t outs ctx1 t1 hpre
    rw [happ]
    simp [executeSteps, execSwitch, executeCondition, hfalse, hlen]
  · intro hfalse
    have happ := executeSteps_append_of_execPre w pre (Step.logic mode conds :: post)
      ctx t outs ctx1 t1 hpre
    rw [happ]
    simp [executeSteps, execSwitch, executeLogic, hfalse, hlen]

/-- Shared concrete environment oracle for witnesses: every fetch is
aborted by its timeout, every notify POST succeeds, webhook payloads fail
to parse. -/
def witnessWorld : World :=
  ⟨fun _ _ _ _ => .aborted, fun _ _ => .response 200 "", fun _ => .error "nope"⟩

/-- Witness for C1: a two-step prefix-plus-condition flow with a trailing
step; the condition is false, so the run succeeds with exactly 2 outcomes. -/
theorem c1_condition_false_short_circuit_witness :
    (executeSteps witnessWorld
        ([Step.log "hello" none] ++ Step.condition ⟨"x", .eq, .str "ok"⟩ :: [Step.log "after" none])
        ⟨[], []⟩ 0).1.success = true
      ∧ (executeSteps witnessWorld
          ([Step.log "hello" none] ++ Step.condition ⟨"x", .eq, .str "ok"⟩ :: [Step.log "after" none])
          ⟨[], []⟩ 0).1.stepResults
          = [⟨"log", some (.bool true), none, 0⟩]
              ++ [⟨"condition", some (.bool false), none, 1⟩]
      ∧ (executeSteps witnessWorld
          ([Step.log "hello" none] ++ Step.condition ⟨"x", .eq, .str "ok"⟩ :: [Step.log "after" none])
          ⟨[], []⟩ 0).1.stepResults.length = [Step.log "hello" none].length + 1 :=
  (c1_condition_false_short_circuit witnessWorld
    [Step.log "hello" none] [Step.log "after" none] ⟨"x", .eq, .str "ok"⟩ .and []
    ⟨[], []⟩ ⟨[], ["[log] hello"]⟩ 0 1 [⟨"log", some (.bool true), none, 0⟩] rfl).1 rfl

/-- C6: when every step before a fetch step executes successfully without
halting, that fetch step has a configured timeout and its HTTP call is
aborted by it, `executeSteps` reports `success = false`, the fetch step's
outcome carries the timeout-specific error message, no later step produces
an outcome, and no entry is written into the context's results under the
fetch step's id. -/
theorem c6_fetch_timeout_fails_run (w : World)
    (pre post : List Step) (fid url method : String)
    (headers : List (String × String)) (body : Option String) (ms : Nat)
    (ctx ctx1 : ExecContext) (t t1 : Nat) (outs : List StepExecutionResult)
    (hpre : execPre w pre ctx t = some (outs, ctx1, t1))
    (habort : w.fetchHttp url method (fetchHeaders headers body) body = .aborted)
    (hfree : ctx1.results.lookup fid = none) :
    (executeSteps w (pre ++ Step.fetch fid url method headers body (some ms) :: post) ctx t).1.success
        = false
      ∧ (executeSteps w (pre ++ Step.fetch fid url method headers body (some ms) :: post) ctx t).1.stepResults
          = outs ++ [⟨fid, none, some (timeoutErrorText ms), t1⟩]
      ∧ (executeSteps w (pre ++ Step.fetch fid url method headers body (some ms) :: post) ctx t).1.stepResults.length
          = pre.length + 1
      ∧ (executeSteps w (pre ++ Step.fetch fid url method headers body (some ms) :: post) ctx t).2.1.results.lookup fid
          = none := by
  have hlen := execPre_length w pre ctx t outs ctx1 t1 hpre
  have happ := executeSteps_append_of_execPre w pre
    (Step.fetch fid url method headers body (some ms) :: post) ctx t outs ctx1 t1 hpre
  rw [happ]
  simp [executeSteps, execSwitch, executeFetch, habort, hlen, pushLog, timeoutErrorText, hfree]
  exact ⟨rfl, rfl⟩

/-- Witness for C6: a log step followed by a timed-out fetch and a trailing
step. -/
theorem c6_fetch_timeout_fails_run_witness :
    (executeSteps witnessWorld
        ([Step.log "hello" none] ++ Step.fetch "f1" "http://x" "GET" [] none (some 500) :: [Step.log "after" none])
        ⟨[], []⟩ 0).1.success = false
      ∧ (executeSteps witnessWorld
          ([Step.log "hello" none] ++ Step.fetch "f1" "http://x" "GET" [] none (some 500) :: [Step.log "after" none])
          ⟨[], []⟩ 0).1.stepResults
          = [⟨"log", some (.bool true), none, 0⟩]
              ++ [⟨"f1", none, some (timeoutErrorText 500), 1⟩]
      ∧ (executeSteps witnessWorld
          ([Step.log "hello" none] ++ Step.fetch "f1" "http://x" "GET" [] none (some 500) :: [Step.log "after" none])
          ⟨[], []⟩ 0).1.stepResults.length = [Step.log "hello" none].length + 1
      ∧ (executeSteps witnessWorld
          ([Step.log "hello" none] ++ Step.fetch "f1" "http://x" "GET" [] none (some 500) :: [Step.log "after" none])
          ⟨[], []⟩ 0).2.1.results.lookup "f1" = none :=
  c6_fetch_timeout_fails_run witnessWorld
    [Step.log "hello" none] [Step.log "after" none] "f1" "http://x" "GET" [] none 500
    ⟨[], []⟩ ⟨[], ["[log] hello"]⟩ 0 1 [⟨"log", some (.bool true), none, 0⟩] rfl rfl rfl


/-! ### Run orchestrator (`src/lib/utils.ts`: `runFlowNow`) -/

/-- Run trigger origins (zod: `z.enum(["manual", "cron"])`). -/
inductive Trigger where
  | manual | cron
deriving DecidableEq

def Trigger.render : Trigger → String
  | .manual => "manual"
  | .cron => "cron"

inductive RunStatus where
  | success | failure
deriving DecidableEq

/-- `FlowRecord` from `src/schemas/FlowConfig.ts`: the flow configuration
plus identity and bookkeeping.  `enabled` is optional in stored data (the
`withDefaults` normaliser fills it); timestamps are clock readings. -/
structure FlowRecord where
  id : String
  name : String
  schedule : String
  enabled : Option Bool
  steps : List Step
  createdAt : Nat
  updatedAt : Nat
  lastRunAt : Option Nat
deriving DecidableEq

/-- `RunRecord` from `src/schemas/RunRecord.ts`; `trigger` is optional in
stored data (zod default `"manual"`, applied by `normalizeRun`). -/
structure RunRecord where
  id : String
  flowId : String
  name : String
  status : RunStatus
  trigger : Option Trigger
  startedAt : Nat
  finishedAt : Nat
  logs : List String
  steps : List StepExecutionResult
  flow : FlowRecord

/-- The `ExecContext` created at the top of `runFlowNow`, seeded with the
system log line recording trigger and start time. -/
def initialRunContext (trigger : Trigger) (startedAt : Nat) : ExecContext :=
  let tr := trigger.render
  ⟨[], [s!"[system] Triggered by {tr} at {startedAt}"]⟩

/-- The type of the interpreter call wrapped in `runFlowNow`'s `try`:
given the fresh context and current clock it returns either the
`ExecutionOutcome` or a thrown error message, the mutated context, and the
advanced clock.  `runFlowNow` is parameterised over it because the `catch`
branch guards against interpreter-level exceptions that the total
`executeSteps` model cannot itself produce. -/
abbrev StepsExec := ExecContext → Nat → (Except String ExecutionOutcome) × ExecContext × Nat

/-- The non-throwing instantiation: the source's actual call
`executeSteps(flow.steps, execContext, env)`. -/
def stepsExec (w : World) (steps : List Step) : StepsExec := fun ctx t =>
  let r := executeSteps w steps ctx t
  (.ok r.1, r.2.1, r.2.2)

/-- `runFlowNow` from `src/lib/utils.ts`: stamp `startedAt`, seed the
context, run the interpreter; a thrown interpreter error is caught and
converted to a failing outcome with the single synthetic
`stepId = "execution"` result, its message also pushed onto the log lines;
stamp `finishedAt` and assemble the `RunRecord` (run id supplied by the
caller, modelling `crypto.randomUUID()`). -/
def runFlowNow (flow : FlowRecord) (options : Option Trigger) (uuid : String)
    (exec : StepsExec) (t0 : Nat) : RunRecord × Nat :=
  let startedAt := t0
  let trigger := options.getD .manual
  match exec (initialRunContext trigger startedAt) (t0 + 1) with
  | (.ok outcome, ctx1, t1) =>
    ({id := uuid, flowId := flow.id, name := flow.name,
      status := if outcome.success then .success else .failure,
      trigger := some trigger, startedAt := startedAt, finishedAt := t1,
      logs := ctx1.logs, steps := outcome.stepResults, flow := flow}, t1 + 1)
  | (.error msg, ctx1, t1) =>
    let outcome : ExecutionOutcome := ⟨false, [⟨"execution", none, some msg, t1⟩]⟩
    let ctx2 := pushLog ctx1 msg
    ({id := uuid, flowId := flow.id, name := flow.name,
      status := .failure,
      trigger := some trigger, startedAt := startedAt, finishedAt := t1 + 1,
      logs := ctx2.logs, steps := outcome.stepResults, flow := flow}, t1 + 2)

/-- The source's concrete composition of orchestrator and interpreter. -/
def runFlowNowWith (w : World) (flow : FlowRecord) (options : Option Trigger)
    (uuid : String) (t0 : Nat) : RunRecord × Nat :=
  runFlowNow flow options uuid (stepsExec w flow.steps) t0

/-- C3: `runFlowNow` is total (always returns a `RunRecord`); for any
interpreter whose clock never goes backwards, `startedAt` is the reading
taken before execution starts and `finishedAt` a strictly later one taken
after it, whatever the outcome; and when the interpreter throws, the run is
a failure whose steps are exactly the single synthetic
`stepId = "execution"` outcome carrying the thrown message, which is also
appended to the run's log lines. -/
theorem c3_runFlowNow_catches_and_stamps (flow : FlowRecord)
    (options : Option Trigger) (uuid : String) (exec : StepsExec) (t0 : Nat)
    (hmono : ∀ ctx t, t ≤ (exec ctx t).2.2) :
    (runFlowNow flow options uuid exec t0).1.startedAt = t0
      ∧ (runFlowNow flow options uuid exec t0).1.startedAt
          < (runFlowNow flow options uuid exec t0).1.finishedAt
      ∧ (∀ msg ctx1 t1,
          exec (initialRunContext (options.getD .manual) t0) (t0 + 1)
              = (.error msg, ctx1, t1) →
          (runFlowNow flow options uuid exec t0).1.status = .failure
            ∧ (runFlowNow flow options uuid exec t0).1.steps
                = [⟨"execution", none, some msg, t1⟩]
            ∧ msg ∈ (runFlowNow flow options uuid exec t0).1.logs) := by
  have hm := hmono (initialRunContext (options.getD .manual) t0) (t0 + 1)
  rcases hx : exec (initialRunContext (options.getD .manual) t0) (t0 + 1)
    with ⟨e, ctx1, t1⟩
  rw [hx] at hm
  simp only at hm
  rcases e with msg | outcome
  · refine ⟨by simp [runFlowNow, hx], by simp [runFlowNow, hx]; omega, ?_⟩
    intro msg2 ctx2 t2 h2
    simp only [Prod.mk.injEq, Except.error.injEq] at h2
    obtain ⟨hm2, hc2, ht2⟩ := h2
    subst hm2; subst ht2
    refine ⟨by simp [runFlowNow, hx], by simp [runFlowNow, hx], ?_⟩
    simp [runFlowNow, hx, pushLog]
  · refine ⟨by simp [runFlowNow, hx], by simp [runFlowNow, hx]; omega, ?_⟩
    intro msg2 ctx2 t2 h2
    simp at h2

/-- A throwing interpreter for the C3 witness. -/
def throwingExec : StepsExec := fun ctx t => (.error "boom", ctx, t)

def witnessFlow : FlowRecord :=
  ⟨"wf", "Witness Flow", "* * * * *", some true, [], 0, 0, none⟩

/-- Witness for C3 at a concrete throwing interpreter. -/
theorem c3_runFlowNow_catches_and_stamps_witness :
    (runFlowNow witnessFlow none "run-1" throwingExec 0).1.startedAt = 0
      ∧ (runFlowNow witnessFlow none "run-1" throwingExec 0).1.startedAt
          < (runFlowNow witnessFlow none "run-1" throwingExec 0).1.finishedAt
      ∧ ((runFlowNow witnessFlow none "run-1" throwingExec 0).1.status = .failure
          ∧ (runFlowNow witnessFlow none "run-1" throwingExec 0).1.steps
              = [⟨"execution", none, some "boom", 1⟩]
          ∧ "boom" ∈ (runFlowNow witnessFlow none "run-1" throwingExec 0).1.logs) := by
  have h := c3_runFlowNow_catches_and_stamps witnessFlow none "run-1" throwingExec 0
    (fun ctx t => Nat.le_refl t)
  exact ⟨h.1, h.2.1, h.2.2 "boom" (initialRunContext .manual 0) 1 rfl⟩


/-! ### Flow/run store (`src/durable/NexFlowManager.ts`, `src/lib/utils.ts`) -/

/-- Lowercase ASCII letters and digits — the characters `generateFlowId`
keeps (everything matching `[^a-z0-9]` after lowercasing is collapsed). -/
def isLowerAlnum (c : Char) : Bool :=
  ('a' ≤ c && c ≤ 'z') || ('0' ≤ c && c ≤ '9')

/-- `.replace(/[^a-z0-9]+/g, "-")`: each maximal run of non-alphanumeric
characters becomes a single `'-'` (`inRun` tracks being inside such a run). -/
def collapseNonAlnumGo (inRun : Bool) : List Char → List Char
  | [] => []
  | c :: rest =>
    if isLowerAlnum c then c :: collapseNonAlnumGo false rest
    else if inRun then collapseNonAlnumGo true rest
    else '-' :: collapseNonAlnumGo true rest

/-- `.replace(/^-+|-+$/g, "")`: strip the leading and trailing dash runs. -/
def stripDashEnds (l : List Char) : List Char :=
  ((l.dropWhile (fun c => c = '-')).reverse.dropWhile (fun c => c = '-')).reverse

/-- The source's third replace (dash runs of length at least 2 become a
single dash; redundant after the first replace, but mirrored anyway). -/
def collapseDashGo (inRun : Bool) : List Char → List Char
  | [] => []
  | c :: rest =>
    if c = '-' then
      if inRun then collapseDashGo true rest
      else '-' :: collapseDashGo true rest
    else c :: collapseDashGo false rest

/-- `generateFlowId` from `src/lib/utils.ts`: lowercase, collapse
non-alphanumeric runs to `'-'`, strip edge dashes, collapse dash runs. -/
def generateFlowId (name : String) : String :=
  String.mk (collapseDashGo false (stripDashEnds (collapseNonAlnumGo false (name.data.map Char.toLower))))

/-- The durable object's stored state (`NexFlowState`): flows by id and run
history by flow id.  Both records are modelled as total functions — a JS
object lookup of an absent key is `undefined`, and an absent history entry
is initialised to `[]` by `persistRun` before use, so absent and empty
histories are indistinguishable. -/
structure NexFlowState where
  flows : String → Option FlowRecord
  history : String → List RunRecord

def emptyState : NexFlowState :=
  ⟨fun _ => none, fun _ => []⟩

/-- `normalizeRun`: apply the zod default `trigger = "manual"`. -/
def normalizeRun (run : RunRecord) : RunRecord :=
  {run with trigger := some (run.trigger.getD .manual)}

/-- `withDefaults`: apply the default `enabled = true`. -/
def withDefaults (flow : FlowRecord) : FlowRecord :=
  {flow with enabled := some (flow.enabled.getD true)}

/-- `persistRun` from `src/durable/NexFlowManager.ts`: normalise the record,
prepend it to that flow's history, cap the history at 50 with `slice(0, 50)`,
and, only if the flow still exists, update its `lastRunAt` to the record's
`finishedAt`. -/
def persistRun (state : NexFlowState) (record : RunRecord) : NexFlowState :=
  let normalized := normalizeRun record
  let flowId := normalized.flowId
  let hist := (normalized :: state.history flowId).take 50
  let flows2 :=
    match state.flows flowId with
    | some flow =>
      fun x => if x = record.flowId then some {flow with lastRunAt := some normalized.finishedAt}
        else state.flows x
    | none => state.flows
  ⟨flows2, fun x => if x = flowId then hist else state.history x⟩

/-- `FlowConfig` (zod `FlowConfigSchema` after parsing: `enabled` has its
default applied). -/
structure FlowConfig where
  name : String
  schedule : String
  enabled : Bool
  steps : List Step

/-- Result of `POST /flows`: 409 `"Flow already exists"` or 201 with the
stored record. -/
inductive CreateResult where
  | conflict
  | created (record : FlowRecord)

/-- The `POST /flows` branch of `NexFlowManager.fetch`: derive the id from
the name; reject as a duplicate (storing nothing) when a flow with that id
exists; otherwise store the new record (with defaults) under the id. -/
def createFlow (storage : NexFlowState) (payload : FlowConfig) (now : Nat) :
    CreateResult × NexFlowState :=
  let id := generateFlowId payload.name
  match storage.flows id with
  | some _ => (.conflict, storage)
  | none =>
    let record : FlowRecord :=
      {id := id, name := payload.name, schedule := payload.schedule,
       enabled := some payload.enabled, steps := payload.steps,
       createdAt := now, updatedAt := now, lastRunAt := none}
    let record2 := withDefaults record
    (.created record2,
     ⟨fun x => if x = id then some record2 else storage.flows x, storage.history⟩)


/-! ### Store lemmas and claims C4, C9, C10 -/

theorem take_append_take (A B : List RunRecord) (n : Nat) :
    (A ++ B.take n).take n = (A ++ B).take n := by
  rw [List.take_append_eq_append_take, List.take_append_eq_append_take,
    List.take_take, Nat.min_eq_left (Nat.sub_le n A.length)]

theorem persistRun_history_self (st : NexFlowState) (r : RunRecord) :
    (persistRun st r).history r.flowId
      = (normalizeRun r :: st.history r.flowId).take 50 := by
  simp [persistRun, normalizeRun]

theorem persistRun_history_other (st : NexFlowState) (r : RunRecord)
    (g : String) (hg : g ≠ r.flowId) :
    (persistRun st r).history g = st.history g := by
  simp [persistRun, normalizeRun, hg]

theorem persist_fold_history (records : List RunRecord) :
    ∀ (st : NexFlowState) (f : String),
      st.history f = (st.history f).take 50 →
      (records.foldl persistRun st).history f
        = ((((records.filter (fun r => r.flowId = f)).map normalizeRun).reverse)
            ++ st.history f).take 50 := by
  induction records with
  | nil =>
    intro st f hst
    simpa using hst
  | cons r records ih =>
    intro st f hst
    by_cases hf : r.flowId = f
    · subst hf
      have hstep := persistRun_history_self st r
      have hcap : (persistRun st r).history r.flowId
          = ((persistRun st r).history r.flowId).take 50 := by
        simp [hstep, List.take_take]
      have := ih (persistRun st r) r.flowId hcap
      simp only [List.foldl_cons, this, hstep, List.filter_cons_of_pos, List.map_cons,
        List.reverse_cons, decide_eq_true_eq]
      rw [take_append_take, List.append_assoc]
      simp
    · have hstep := persistRun_history_other st r f (fun h => hf h.symm)
      have := ih (persistRun st r) f (by rw [hstep]; exact hst)
      rw [List.foldl_cons, this, hstep, List.filter_cons_of_neg]
      simp [hf]

/-- C4: starting from the empty store, after any sequence of appended run
records each flow's stored history is the most-recent-first listing of that
flow's (normalised) records capped at 50; in particular it never exceeds 50
entries, and appending a record when 50 entries are stored keeps exactly 50,
evicting the oldest. -/
theorem c4_history_cap_and_order :
    (∀ (records : List RunRecord) (f : String),
      ((records.foldl persistRun emptyState).history f).length ≤ 50
        ∧ (records.foldl persistRun emptyState).history f
            = (((records.filter (fun r => r.flowId = f)).map normalizeRun).reverse).take 50)
      ∧ ∀ (st : NexFlowState) (r : RunRecord),
          (st.history r.flowId).length = 50 →
          (persistRun st r).history r.flowId
              = normalizeRun r :: (st.history r.flowId).dropLast
            ∧ ((persistRun st r).history r.flowId).length = 50 := by
  constructor
  · intro records f
    have h := persist_fold_history records emptyState f (by simp [emptyState])
    have hh : emptyState.history f = [] := rfl
    rw [hh, List.append_nil] at h
    exact ⟨by rw [h]; exact List.length_take_le 50 _, h⟩
  · intro st r h50
    have hstep := persistRun_history_self st r
    constructor
    · rw [hstep, List.take_cons, List.dropLast_eq_take, h50]
      omega
    · rw [hstep]
      simp [List.length_take, h50]

/-- A concrete run record for store witnesses. -/
def witnessRun : RunRecord :=
  ⟨"r0", "wf", "Witness Flow", .success, some .manual, 0, 1, [], [], witnessFlow⟩

/-- A store whose history for `"wf"` already holds 50 records. -/
def fullState : NexFlowState :=
  ⟨fun _ => none, fun _ => List.replicate 50 witnessRun⟩

/-- Witness for C4: two appended records from the empty store, and an
append onto a 50-entry history. -/
theorem c4_history_cap_and_order_witness :
    ((([witnessRun, witnessRun].foldl persistRun emptyState).history "wf").length ≤ 50
        ∧ ([witnessRun, witnessRun].foldl persistRun emptyState).history "wf"
            = ((([witnessRun, witnessRun].filter (fun r => r.flowId = "wf")).map normalizeRun).reverse).take 50)
      ∧ ((persistRun fullState witnessRun).history witnessRun.flowId
            = normalizeRun witnessRun :: (fullState.history witnessRun.flowId).dropLast
          ∧ ((persistRun fullState witnessRun).history witnessRun.flowId).length = 50) :=
  ⟨c4_history_cap_and_order.1 [witnessRun, witnessRun] "wf",
   c4_history_cap_and_order.2 fullState witnessRun (by simp [fullState])⟩

/-- C9: flow id derivation is a pure function of the name (deriving twice
yields the same id), and creating a flow whose name normalises to the id of
a just-created flow is rejected as a duplicate, storing nothing. -/
theorem c9_flow_id_derivation_and_duplicates :
    (∀ name : String, generateFlowId name = generateFlowId name)
      ∧ ∀ (st : NexFlowState) (p1 p2 : FlowConfig) (now1 now2 : Nat)
          (r1 : FlowRecord) (st1 : NexFlowState),
          createFlow st p1 now1 = (.created r1, st1) →
          generateFlowId p2.name = generateFlowId p1.name →
          createFlow st1 p2 now2 = (.conflict, st1) := by
  refine ⟨fun _ => rfl, ?_⟩
  intro st p1 p2 now1 now2 r1 st1 hcreate heq
  rcases hlook : st.flows (generateFlowId p1.name) with _ | f
  · simp only [createFlow, hlook] at hcreate
    obtain ⟨hr, hst⟩ := Prod.mk.injEq .. ▸ hcreate
    simp only [createFlow, heq, ← hst]
    simp
  · simp [createFlow, hlook] at hcreate

/-- Witness for C9: `"My Flow!"` and `"my  flow"` both normalise to
`"my-flow"`; the second create is rejected and the store is unchanged. -/
theorem c9_flow_id_derivation_and_duplicates_witness :
    generateFlowId "My Flow!" = generateFlowId "My Flow!"
      ∧ createFlow (createFlow emptyState ⟨"My Flow!", "0 9 * * *", true, []⟩ 0).2
            ⟨"my  flow", "0 9 * * *", true, []⟩ 1
          = (.conflict, (createFlow emptyState ⟨"My Flow!", "0 9 * * *", true, []⟩ 0).2) := by
  refine ⟨c9_flow_id_derivation_and_duplicates.1 "My Flow!", ?_⟩
  exact c9_flow_id_derivation_and_duplicates.2 emptyState
    ⟨"My Flow!", "0 9 * * *", true, []⟩ ⟨"my  flow", "0 9 * * *", true, []⟩ 0 1
    ⟨"my-flow", "My Flow!", "0 9 * * *", some true, [], 0, 0, none⟩
    (createFlow emptyState ⟨"My Flow!", "0 9 * * *", true, []⟩ 0).2
    rfl (by decide)

/-- C10: appending a run record whose flow id matches no stored flow still
creates/prepends the (capped) history entry under that flow id, leaves the
flows map untouched, and touches no other flow's history; when the flow
does exist, its record changes only in `lastRunAt` (set to the run's
`finishedAt`), every other flow is untouched, and the history update is the
same in both cases. -/
theorem c10_persistRun_frame (st : NexFlowState) (r : RunRecord) :
    (st.flows r.flowId = none →
      (persistRun st r).flows = st.flows
        ∧ (persistRun st r).history r.flowId
            = (normalizeRun r :: st.history r.flowId).take 50
        ∧ ∀ g, g ≠ r.flowId → (persistRun st r).history g = st.history g)
      ∧ ∀ f, st.flows r.flowId = some f →
          (persistRun st r).flows r.flowId
              = some {f with lastRunAt := some r.finishedAt}
            ∧ (∀ g, g ≠ r.flowId → (persistRun st r).flows g = st.flows g)
            ∧ (persistRun st r).history r.flowId
                = (normalizeRun r :: st.history r.flowId).take 50
            ∧ ∀ g, g ≠ r.flowId → (persistRun st r).history g = st.history g := by
  constructor
  · intro hnone
    refine ⟨?_, persistRun_history_self st r, fun g hg => persistRun_history_other st r g hg⟩
    simp [persistRun, normalizeRun, hnone]
  · intro f hsome
    refine ⟨?_, ?_, persistRun_history_self st r, fun g hg => persistRun_history_other st r g hg⟩
    · simp [persistRun, normalizeRun, hsome]
    · intro g hg
      simp [persistRun, normalizeRun, hsome, hg]

/-- A store holding exactly the witness flow. -/
def oneFlowState : NexFlowState :=
  ⟨fun x => if x = "wf" then some witnessFlow else none, fun _ => []⟩

/-- Witness for C10: the run's flow is absent from the empty store and
present in `oneFlowState`. -/
theorem c10_persistRun_frame_witness :
    ((persistRun emptyState witnessRun).flows = emptyState.flows
        ∧ (persistRun emptyState witnessRun).history witnessRun.flowId
            = (normalizeRun witnessRun :: emptyState.history witnessRun.flowId).take 50
        ∧ ∀ g, g ≠ witnessRun.flowId →
            (persistRun emptyState witnessRun).history g = emptyState.history g)
      ∧ ((persistRun oneFlowState witnessRun).flows witnessRun.flowId
            = some {witnessFlow with lastRunAt := some witnessRun.finishedAt}
          ∧ (∀ g, g ≠ witnessRun.flowId →
              (persistRun oneFlowState witnessRun).flows g = oneFlowState.flows g)
          ∧ (persistRun oneFlowState witnessRun).history witnessRun.flowId
              = (normalizeRun witnessRun :: oneFlowState.history witnessRun.flowId).take 50
          ∧ ∀ g, g ≠ witnessRun.flowId →
              (persistRun oneFlowState witnessRun).history g = oneFlowState.history g) :=
  ⟨(c10_persistRun_frame emptyState witnessRun).1 rfl,
   (c10_persistRun_frame oneFlowState witnessRun).2 witnessFlow rfl⟩


/-! ### Cron evaluator (`src/lib/cron.ts`); the external `cron-parser`
library is modelled by standard 5-field UTC cron semantics (minute hour
day-of-month month day-of-week, numeric atoms with `*`, ranges, steps and
lists), per the spec's stated cron contract. -/

/-- A parsed 5-field cron expression: the admissible value set of each
field, plus whether the day-of-month/day-of-week fields were the bare `*`
(POSIX: when both day fields are restricted, a day matches if either
matches). -/
structure CronExpr where
  minutes : List Nat
  hours : List Nat
  daysOfMonth : List Nat
  months : List Nat
  daysOfWeek : List Nat
  domStar : Bool
  dowStar : Bool
deriving DecidableEq

def parseNatStr (s : String) : Option Nat :=
  digitsToNat s.data

/-- `lo, lo+step, ...` up to `hi`. -/
def rangeStep (lo hi step : Nat) : List Nat :=
  (List.range ((hi - lo) / step + 1)).map (fun i => lo + i * step)

/-- One atom of a cron field (`*`, `n`, or `n-m`), with an optional step:
`*` covers the whole field range, a stepped single value runs to the top of
the range, and bounds are validated against `lo`/`hi`. -/
def parseBase (base : String) (lo hi : Nat) (stepOpt : Option Nat) : Option (List Nat) :=
  if base = "*" then some (rangeStep lo hi (stepOpt.getD 1))
  else
    match splitOnCharGo '-' [] base.data with
    | [a] => do
      let n ← parseNatStr a
      if lo ≤ n ∧ n ≤ hi then
        match stepOpt with
        | none => some [n]
        | some s => some (rangeStep n hi s)
      else none
    | [a, b] => do
      let na ← parseNatStr a
      let nb ← parseNatStr b
      if lo ≤ na ∧ na ≤ nb ∧ nb ≤ hi then some (rangeStep na nb (stepOpt.getD 1))
      else none
    | _ => none

/-- One comma-separated part of a field, possibly with a `/step`. -/
def parsePart (p : String) (lo hi : Nat) : Option (List Nat) :=
  match splitOnCharGo '/' [] p.data with
  | [base] => parseBase base lo hi none
  | [base, stepStr] => do
    let s ← parseNatStr stepStr
    if 1 ≤ s then parseBase base lo hi (some s) else none
  | _ => none

def parsePartList (lo hi : Nat) : List String → Option (List Nat)
  | [] => some []
  | p :: rest => do
    let v ← parsePart p lo hi
    let vs ← parsePartList lo hi rest
    some (v ++ vs)

/-- A whole cron field: a comma-separated list of parts. -/
def parseCronField (s : String) (lo hi : Nat) : Option (List Nat) :=
  parsePartList lo hi (splitOnCharGo ',' [] s.data)

/-- Split on whitespace runs. -/
def splitWsGo (acc : List Char) : List Char → List String
  | [] => [String.mk acc.reverse]
  | c :: rest =>
    if isWsChar c then String.mk acc.reverse :: splitWsGo [] rest
    else splitWsGo (c :: acc) rest

def splitWs (s : String) : List String :=
  (splitWsGo [] s.data).filter (fun x => x ≠ "")

/-- Parse a 5-field cron expression (field ranges: minute 0-59, hour 0-23,
day-of-month 1-31, month 1-12, day-of-week 0-7 with 7 ≡ Sunday ≡ 0). -/
def parseCron (s : String) : Option CronExpr :=
  match splitWs s with
  | [mi, h, dom, mon, dow] => do
    let mi2 ← parseCronField mi 0 59
    let h2 ← parseCronField h 0 23
    let dom2 ← parseCronField dom 1 31
    let mon2 ← parseCronField mon 1 12
    let dowRaw ← parseCronField dow 0 7
    some ⟨mi2, h2, dom2, mon2, dowRaw.map (fun d => d % 7), dom = "*", dow = "*"⟩
  | _ => none

/-- Proleptic Gregorian civil date `(year, month, day)` from days since
1970-01-01 (Howard Hinnant's `civil_from_days` algorithm, valid for
non-negative day counts). -/
def civilFromDays (days : Nat) : Nat × Nat × Nat :=
  let z := days + 719468
  let era := z / 146097
  let doe := z % 146097
  let yoe := (doe - doe / 1460 + doe / 36524 - doe / 146096) / 365
  let y := yoe + era * 400
  let doy := doe - (365 * yoe + yoe / 4 - yoe / 100)
  let mp := (5 * doy + 2) / 153
  let d := doy - (153 * mp + 2) / 5 + 1
  let m := if mp < 10 then mp + 3 else mp - 9
  (if m ≤ 2 then y + 1 else y, m, d)

/-- Whether minute index `m` (minutes since the epoch, UTC) matches the
cron expression: minute, hour and month must match; the two day fields both
match when either is `*`, and POSIX-style either-matches when both are
restricted. -/
def cronMatchesMinute (e : CronExpr) (m : Nat) : Bool :=
  let minute := m % 60
  let totalHours := m / 60
  let hour := totalHours % 24
  let days := totalHours / 24
  let c := civilFromDays days
  let mon := c.2.1
  let dom := c.2.2
  let dow := (days + 4) % 7
  e.minutes.contains minute && e.hours.contains hour && e.months.contains mon &&
    (let domOk := e.daysOfMonth.contains dom
     let dowOk := e.daysOfWeek.contains dow
     if e.domStar || e.dowStar then domOk && dowOk else domOk || dowOk)

/-- Fuel-bounded upward scan for the first matching minute index at or
after `m`; the fuel models the iteration bound after which the cron
library's `next()` throws (caught by `isDue`). -/
def searchFrom (e : CronExpr) : Nat → Nat → Option Nat
  | _, 0 => none
  | m, fuel + 1 =>
    if cronMatchesMinute e m then some m else searchFrom e (m + 1) fuel

def cronSearchFuel : Nat := 10000000

/-- The next cron instant (in seconds) strictly after `ref`: cron fires at
second 0 of matching minutes, so scan minute indices starting at the first
minute boundary strictly after `ref`. -/
def nextAfter (e : CronExpr) (ref : Nat) : Option Nat :=
  (searchFrom e (ref / 60 + 1) cronSearchFuel).map (fun m => m * 60)

/-- The reference instant of `isDue`: `lastRunAt` when present, otherwise
`now` minus 60 seconds. -/
def refInstant (lastRunAt : Option Nat) (now : Nat) : Nat :=
  match lastRunAt with
  | some l => l
  | none => now - 60

/-- `isDue` from `src/lib/cron.ts`: parse the schedule, compute the next
occurrence strictly after the reference instant, and report whether it has
arrived; a parse failure (or an exhausted search, the library's thrown
iteration bound) is caught and reported as `false`.  Times are seconds
since the epoch, UTC. -/
def isDue (schedule : String) (lastRunAt : Option Nat) (now : Nat) : Bool :=
  match parseCron schedule with
  | none => false
  | some expression =>
    match nextAfter expression (refInstant lastRunAt now) with
    | none => false
    | some nextRun => decide (nextRun ≤ now)


theorem searchFrom_spec (e : CronExpr) :
    ∀ fuel m m2, searchFrom e m fuel = some m2 →
      m ≤ m2 ∧ cronMatchesMinute e m2 = true
        ∧ ∀ k, m ≤ k → k < m2 → cronMatchesMinute e k = false := by
  intro fuel
  induction fuel with
  | zero => intro m m2 h; simp [searchFrom] at h
  | succ fuel ih =>
    intro m m2 h
    simp only [searchFrom] at h
    by_cases hm : cronMatchesMinute e m = true
    · rw [if_pos hm] at h
      obtain hm2 := Option.some.inj h
      subst hm2
      exact ⟨Nat.le_refl m, hm, fun k hk1 hk2 => absurd (Nat.lt_of_le_of_lt hk1 hk2) (Nat.lt_irrefl m)⟩
    · rw [if_neg hm] at h
      obtain ⟨h1, h2, h3⟩ := ih (m + 1) m2 h
      refine ⟨by omega, h2, ?_⟩
      intro k hk1 hk2
      rcases Nat.eq_or_lt_of_le hk1 with hk | hk
      · subst hk
        exact Bool.not_eq_true _ ▸ (Bool.eq_false_iff.mpr (fun habs => hm habs))
      · exact h3 k (by omega) hk2

/-- C2: whenever the schedule parses and the next-occurrence search
succeeds, `isDue` returns true exactly when that occurrence has arrived
(`nr ≤ now`); and `nr` really is the next scheduled occurrence — a
minute-boundary instant strictly after the reference instant (`lastRunAt`
when present, else `now - 60`), matching the cron expression, and minimal
among all such instants. -/
theorem c2_isDue_next_occurrence (schedule : String) (lastRunAt : Option Nat)
    (now : Nat) (e : CronExpr) (nr : Nat)
    (hp : parseCron schedule = some e)
    (hn : nextAfter e (refInstant lastRunAt now) = some nr) :
    (isDue schedule lastRunAt now = true ↔ nr ≤ now)
      ∧ refInstant lastRunAt now < nr
      ∧ nr % 60 = 0
      ∧ cronMatchesMinute e (nr / 60) = true
      ∧ (∀ t2, refInstant lastRunAt now < t2 → t2 % 60 = 0 →
          cronMatchesMinute e (t2 / 60) = true → nr ≤ t2) := by
  rcases hs : searchFrom e (refInstant lastRunAt now / 60 + 1) cronSearchFuel with _ | m2
  · rw [nextAfter, hs] at hn
    simp at hn
  · rw [nextAfter, hs] at hn
    simp at hn
    obtain ⟨h1, h2, h3⟩ := searchFrom_spec e cronSearchFuel _ m2 hs
    have hq := Nat.div_add_mod (refInstant lastRunAt now) 60
    have hr : refInstant lastRunAt now % 60 < 60 := Nat.mod_lt _ (by norm_num)
    subst hn
    refine ⟨?_, by omega, by simp, ?_, ?_⟩
    · simp [isDue, hp, nextAfter, hs]
    · have : m2 * 60 / 60 = m2 := Nat.mul_div_cancel m2 (by norm_num)
      rw [this]
      exact h2
    · intro t2 ht1 ht2 ht3
      have hdiv := Nat.div_add_mod t2 60
      have hge : refInstant lastRunAt now / 60 + 1 ≤ t2 / 60 := by omega
      by_contra hlt
      push_neg at hlt
      have hklt : t2 / 60 < m2 := by omega
      have hfalse := h3 (t2 / 60) hge hklt
      rw [ht3] at hfalse
      exact absurd hfalse (by simp)

/-- The parsed witness schedule (every five minutes). -/
def witnessCron : CronExpr :=
  (parseCron "*/5 * * * *").getD ⟨[], [], [], [], [], true, true⟩

/-- Witness for C2 at the spec's own scenario: `*/5 * * * *`, last run
2025-01-01T11:55:00Z (epoch 1735732500), now 12:00:00Z (1735732800) — the
next occurrence is 12:00:00Z itself, so the flow is due. -/
theorem c2_isDue_next_occurrence_witness :
    isDue "*/5 * * * *" (some 1735732500) 1735732800 = true
      ∧ refInstant (some 1735732500) 1735732800 < 1735732800 := by
  have h := c2_isDue_next_occurrence "*/5 * * * *" (some 1735732500) 1735732800
    witnessCron 1735732800 rfl rfl
  exact ⟨h.1.mpr (by decide), h.2.1⟩

/-- C7: an unparseable schedule string makes `isDue` return false for every
`lastRunAt`/`now` — the parse error is swallowed (and, in the source, only
logged), never raised; `isDue` is a total function. -/
theorem c7_unparseable_schedule_never_due (schedule : String)
    (lastRunAt : Option Nat) (now : Nat)
    (h : parseCron schedule = none) :
    isDue schedule lastRunAt now = false := by
  simp [isDue, h]

/-- Witness for C7 at a concrete malformed schedule. -/
theorem c7_unparseable_schedule_never_due_witness :
    isDue "not-a-cron" (some 5) 100 = false :=
  c7_unparseable_schedule_never_due "not-a-cron" (some 5) 100 rfl

end NexFlow
